import Mathlib

/-!
Verification of the codebase-review script (`.github/scripts/claude-review.py`)
against its design document.  The script's pure core — file batching under a
token budget, severity partitioning of review findings, summary counting,
brace-region JSON extraction, and the credential/exit-code logic — is embedded
shallowly below; Python strings are modelled as `List Char`, dictionaries with
possibly-missing keys as `Option`-valued fields, and caught exceptions as
`Except` / `Option` values.
-/

namespace ClaudeReview

/-- A collected source file: `{'path': ..., 'content': ...}` as built by
`get_codebase_files`. -/
structure SourceFile where
  path : List Char
  content : List Char
  deriving Repr, DecidableEq

/-- Token estimate of one file, from `chunk_files_for_review`:
`file_tokens = len(file['content']) // 4` (Python floor division). -/
def file_tokens (f : SourceFile) : Nat :=
  f.content.length / 4

/-- Token estimate of a batch: the sum of the per-file estimates, which is the
quantity `current_size` tracks for the chunk under construction. -/
def batchTokens (c : List SourceFile) : Nat :=
  (c.map file_tokens).sum

/-- Modelled from the spec: the per-file estimate as the spec states it,
`ceil(content_length / 4)`.  Kept separate from `file_tokens`, which is
translated from the code, so the two can be compared. -/
def specCeilTokens (f : SourceFile) : Nat :=
  (f.content.length + 3) / 4

/-- One iteration of the loop body of `chunk_files_for_review`: the state is
`(chunks, current_chunk, current_size)`. -/
def chunkStep (max_tokens : Nat)
    (st : List (List SourceFile) × List SourceFile × Nat) (f : SourceFile) :
    List (List SourceFile) × List SourceFile × Nat :=
  let chunks := st.1
  let current_chunk := st.2.1
  let current_size := st.2.2
  if max_tokens < current_size + file_tokens f then
    (if current_chunk.isEmpty then chunks else chunks ++ [current_chunk],
     [f], file_tokens f)
  else
    (chunks, current_chunk ++ [f], current_size + file_tokens f)

/-- `chunk_files_for_review(files, max_tokens)`: greedy batching of the file
list under the token budget, with the trailing non-empty chunk flushed at the
end. -/
def chunk_files_for_review (files : List SourceFile) (max_tokens : Nat) :
    List (List SourceFile) :=
  let st := files.foldl (chunkStep max_tokens) ([], [], 0)
  if st.2.1.isEmpty then st.1 else st.1 ++ [st.2.1]

/-- The loop invariant of `chunk_files_for_review` relating the state
`(chunks, current_chunk, current_size)` to the files processed so far. -/
def ChunkInv (budget : Nat) (processed : List SourceFile)
    (st : List (List SourceFile) × List SourceFile × Nat) : Prop :=
  st.2.2 = batchTokens st.2.1
  ∧ (∀ c ∈ st.1, c ≠ [])
  ∧ (∀ c ∈ st.1, 2 ≤ c.length → batchTokens c ≤ budget)
  ∧ (2 ≤ st.2.1.length → batchTokens st.2.1 ≤ budget)
  ∧ st.1.flatten ++ st.2.1 = processed
  ∧ (∀ f ∈ processed, budget < file_tokens f → [f] ∈ st.1 ∨ st.2.1 = [f])

lemma batchTokens_nil : batchTokens [] = 0 := rfl

lemma batchTokens_append (a b : List SourceFile) :
    batchTokens (a ++ b) = batchTokens a + batchTokens b := by
  simp [batchTokens]

lemma batchTokens_single (f : SourceFile) : batchTokens [f] = file_tokens f := by
  simp [batchTokens]

lemma le_batchTokens_of_mem {f : SourceFile} {c : List SourceFile} (h : f ∈ c) :
    file_tokens f ≤ batchTokens c := by
  induction c with
  | nil => cases h
  | cons g gs ih =>
    rcases List.mem_cons.mp h with h1 | h2
    · subst h1
      simp [batchTokens]
    · have := ih h2
      simp only [batchTokens, List.map_cons, List.sum_cons] at *
      omega

lemma chunkStep_inv {budget : Nat} {processed : List SourceFile}
    {st : List (List SourceFile) × List SourceFile × Nat} (f : SourceFile)
    (h : ChunkInv budget processed st) :
    ChunkInv budget (processed ++ [f]) (chunkStep budget st f) := by
  obtain ⟨chunks, cur, size⟩ := st
  obtain ⟨hsize, hne, hle, hcur, hjoin, hover⟩ := h
  simp only at hsize hne hle hcur hjoin hover
  unfold chunkStep
  simp only
  by_cases hb : budget < size + file_tokens f
  · simp only [if_pos hb]
    refine ⟨by simp [batchTokens], ?_, ?_, ?_, ?_, ?_⟩
    · intro c hc
      by_cases hcve : cur.isEmpty
      · simp only [if_pos hcve] at hc
        exact hne c hc
      · simp only [if_neg hcve] at hc
        rcases List.mem_append.mp hc with h1 | h2
        · exact hne c h1
        · simp only [List.mem_singleton] at h2
          subst h2
          exact fun hcnil => hcve (by simp [hcnil])
    · intro c hc hlen
      by_cases hcve : cur.isEmpty
      · simp only [if_pos hcve] at hc
        exact hle c hc hlen
      · simp only [if_neg hcve] at hc
        rcases List.mem_append.mp hc with h1 | h2
        · exact hle c h1 hlen
        · simp only [List.mem_singleton] at h2
          subst h2
          exact hcur hlen
    · intro hlen
      simp at hlen
    · by_cases hcve : cur.isEmpty
      · have hcnil : cur = [] := by
          cases cur with
          | nil => rfl
          | cons a as => simp [List.isEmpty] at hcve
        simp only [if_pos hcve]
        rw [hcnil] at hjoin
        simp only [List.append_nil] at hjoin
        rw [hjoin]
      · simp only [if_neg hcve]
        rw [List.flatten_append]
        simp only [List.flatten, List.append_nil]
        rw [← hjoin]
    · intro g hg hgover
      rcases List.mem_append.mp hg with h1 | h2
      · rcases hover g h1 hgover with h3 | h4
        · left
          by_cases hcve : cur.isEmpty
          · simp only [if_pos hcve]
            exact h3
          · simp only [if_neg hcve]
            exact List.mem_append.mpr (Or.inl h3)
        · left
          have hcve : ¬ cur.isEmpty := by
            rw [h4]
            simp [List.isEmpty]
          simp only [if_neg hcve]
          exact List.mem_append.mpr (Or.inr (by simp [h4]))
      · simp only [List.mem_singleton] at h2
        subst h2
        right
        rfl
  · simp only [if_neg hb]
    push_neg at hb
    refine ⟨?_, hne, hle, ?_, ?_, ?_⟩
    · rw [batchTokens_append, batchTokens_single, hsize]
    · intro _
      rw [batchTokens_append, batchTokens_single, ← hsize]
      exact hb
    · rw [← List.append_assoc, hjoin]
    · intro g hg hgover
      rcases List.mem_append.mp hg with h1 | h2
      · rcases hover g h1 hgover with h3 | h4
        · exact Or.inl h3
        · exfalso
          rw [h4] at hsize
          rw [batchTokens_single] at hsize
          omega
      · exfalso
        simp only [List.mem_singleton] at h2
        subst h2
        omega

lemma chunkFold_inv (budget : Nat) :
    ∀ (files processed : List SourceFile)
      (st : List (List SourceFile) × List SourceFile × Nat),
    ChunkInv budget processed st →
    ChunkInv budget (processed ++ files) (files.foldl (chunkStep budget) st) := by
  intro files
  induction files with
  | nil =>
    intro processed st h
    simpa using h
  | cons f fs ih =>
    intro processed st h
    have h1 := chunkStep_inv f h
    have h2 := ih (processed ++ [f]) (chunkStep budget st f) h1
    simpa using h2

lemma chunkInv_init (budget : Nat) : ChunkInv budget [] ([], [], 0) := by
  refine ⟨rfl, ?_, ?_, ?_, rfl, ?_⟩ <;> simp

/-- Everything the claims need about the final output of
`chunk_files_for_review`, derived from the loop invariant. -/
lemma chunk_files_spec (files : List SourceFile) (budget : Nat) :
    (∀ c ∈ chunk_files_for_review files budget, c ≠ [])
    ∧ (∀ c ∈ chunk_files_for_review files budget,
        2 ≤ c.length → batchTokens c ≤ budget)
    ∧ (chunk_files_for_review files budget).flatten = files
    ∧ (∀ f ∈ files, budget < file_tokens f →
        [f] ∈ chunk_files_for_review files budget) := by
  have h := chunkFold_inv budget files [] ([], [], 0) (chunkInv_init budget)
  simp only [List.nil_append] at h
  obtain ⟨hsize, hne, hle, hcur, hjoin, hover⟩ := h
  unfold chunk_files_for_review
  set st := files.foldl (chunkStep budget) ([], [], 0) with hst
  by_cases hcve : st.2.1.isEmpty
  · have hcnil : st.2.1 = [] := by
      cases hcc : st.2.1 with
      | nil => rfl
      | cons a as => rw [hcc] at hcve; simp [List.isEmpty] at hcve
    simp only [if_pos hcve]
    refine ⟨hne, hle, ?_, ?_⟩
    · rw [hcnil] at hjoin
      simpa using hjoin
    · intro f hf hfover
      rcases hover f hf hfover with h1 | h2
      · exact h1
      · rw [hcnil] at h2
        exact absurd h2.symm (by simp)
  · simp only [if_neg hcve]
    have hcnotnil : st.2.1 ≠ [] := by
      intro hcc
      rw [hcc] at hcve
      simp [List.isEmpty] at hcve
    refine ⟨?_, ?_, ?_, ?_⟩
    · intro c hc
      rcases List.mem_append.mp hc with h1 | h2
      · exact hne c h1
      · simp only [List.mem_singleton] at h2
        subst h2
        exact hcnotnil
    · intro c hc hlen
      rcases List.mem_append.mp hc with h1 | h2
      · exact hle c h1 hlen
      · simp only [List.mem_singleton] at h2
        subst h2
        exact hcur hlen
    · rw [List.flatten_append]
      simpa using hjoin
    · intro f hf hfover
      rcases hover f hf hfover with h1 | h2
      · exact List.mem_append.mpr (Or.inl h1)
      · exact List.mem_append.mpr (Or.inr (by simp [h2]))

/-- Concrete 1000-character file for the end-to-end batching scenario. -/
def fileA : SourceFile := ⟨"a.py".toList, List.replicate 1000 'a'⟩

/-- Concrete 1000-character file for the end-to-end batching scenario. -/
def fileB : SourceFile := ⟨"b.py".toList, List.replicate 1000 'b'⟩

/-- Concrete 210000-character file whose estimate alone exceeds a 50000-token
budget. -/
def fileBig : SourceFile := ⟨"c.py".toList, List.replicate 210000 'c'⟩

/-- Small concrete file (8 characters, 2 tokens) used to instantiate
universally quantified theorems. -/
def tinyFile : SourceFile := ⟨"t.md".toList, "abcdefgh".toList⟩

lemma content_length_fileA : fileA.content.length = 1000 :=
  List.length_replicate 1000 'a'

lemma content_length_fileB : fileB.content.length = 1000 :=
  List.length_replicate 1000 'b'

lemma content_length_fileBig : fileBig.content.length = 210000 :=
  List.length_replicate 210000 'c'

lemma file_tokens_eq (f : SourceFile) : file_tokens f = f.content.length / 4 :=
  rfl

lemma file_tokens_fileA : file_tokens fileA = 250 := by
  rw [file_tokens_eq, content_length_fileA]

lemma file_tokens_fileB : file_tokens fileB = 250 := by
  rw [file_tokens_eq, content_length_fileB]

lemma file_tokens_fileBig : file_tokens fileBig = 52500 := by
  rw [file_tokens_eq, content_length_fileBig]

lemma tiny_chunks : chunk_files_for_review [tinyFile] 50000 = [[tinyFile]] := by
  norm_num [chunk_files_for_review, List.foldl, chunkStep, file_tokens, tinyFile]

lemma chunkStep_under (budget : Nat) (chunks : List (List SourceFile))
    (cur : List SourceFile) (size : Nat) (f : SourceFile)
    (h : ¬ budget < size + file_tokens f) :
    chunkStep budget (chunks, cur, size) f =
      (chunks, cur ++ [f], size + file_tokens f) := by
  unfold chunkStep
  simp only [if_neg h]

lemma chunkStep_over (budget : Nat) (chunks : List (List SourceFile))
    (cur : List SourceFile) (size : Nat) (f : SourceFile)
    (h : budget < size + file_tokens f) :
    chunkStep budget (chunks, cur, size) f =
      (if cur.isEmpty then chunks else chunks ++ [cur], [f], file_tokens f) := by
  unfold chunkStep
  simp only [if_pos h]

lemma chunk_files_eq (files : List SourceFile) (budget : Nat) :
    chunk_files_for_review files budget =
      if (files.foldl (chunkStep budget) ([], [], 0)).2.1.isEmpty
      then (files.foldl (chunkStep budget) ([], [], 0)).1
      else (files.foldl (chunkStep budget) ([], [], 0)).1
           ++ [(files.foldl (chunkStep budget) ([], [], 0)).2.1] :=
  rfl

/-- Second small concrete file (4 characters, 1 token). -/
def tinyFile2 : SourceFile := ⟨"u.md".toList, "wxyz".toList⟩

/-- Claim C4: every batch produced by `chunk_files_for_review` that contains
two or more files has estimated token size at most the budget; a file whose
own estimate exceeds the budget is still emitted, as a singleton batch. -/
theorem C4_budget_invariant (files : List SourceFile) (budget : Nat) :
    (∀ c ∈ chunk_files_for_review files budget,
        2 ≤ c.length → batchTokens c ≤ budget)
    ∧ (∀ f ∈ files, budget < file_tokens f →
        [f] ∈ chunk_files_for_review files budget) :=
  ⟨(chunk_files_spec files budget).2.1, (chunk_files_spec files budget).2.2.2⟩

/-- Witness for C4 at concrete inputs: a two-file batch within a 50000 budget,
and an oversized file (2 tokens against budget 1) kept as its own batch. -/
theorem C4_budget_invariant_witness :
    batchTokens [tinyFile, tinyFile2] ≤ 50000
    ∧ [tinyFile] ∈ chunk_files_for_review [tinyFile] 1 :=
  ⟨(C4_budget_invariant [tinyFile, tinyFile2] 50000).1 [tinyFile, tinyFile2]
      (by decide) (by decide),
   (C4_budget_invariant [tinyFile] 1).2 tinyFile (by decide) (by decide)⟩

/-- Claim C5: concatenating the batches of `chunk_files_for_review` in order
reproduces the input file list exactly — no loss, no duplication, stable
order. -/
theorem C5_flatten_batches (files : List SourceFile) (budget : Nat) :
    (chunk_files_for_review files budget).flatten = files :=
  (chunk_files_spec files budget).2.2.1

/-- Claim C10: `chunk_files_for_review` never emits an empty batch, and an
empty input yields no batches at all. -/
theorem C10_batches_nonempty (files : List SourceFile) (budget : Nat) :
    (∀ c ∈ chunk_files_for_review files budget, c ≠ [])
    ∧ chunk_files_for_review [] budget = [] :=
  ⟨(chunk_files_spec files budget).1, rfl⟩

/-- Witness for C10 at concrete inputs: the single batch of a one-file input
is non-empty, and the empty input yields no batches. -/
theorem C10_batches_nonempty_witness :
    [tinyFile] ≠ ([] : List SourceFile)
    ∧ chunk_files_for_review [] 50000 = [] :=
  ⟨(C10_batches_nonempty [tinyFile] 50000).1 [tinyFile] (by decide),
   (C10_batches_nonempty [tinyFile] 50000).2⟩

/-- Claim C7: with budget 50000 and files of 1000, 1000 and 210000 characters,
the batcher yields exactly two batches — files 1 and 2 together, then the
oversized file 3 alone. -/
theorem C7_end_to_end_batching :
    chunk_files_for_review [fileA, fileB, fileBig] 50000
      = [[fileA, fileB], [fileBig]] := by
  have hA : ¬ (50000:Nat) < 0 + file_tokens fileA := by
    rw [file_tokens_fileA]
    norm_num
  have h1 : chunkStep 50000 ([], [], 0) fileA = ([], [fileA], 250) := by
    rw [chunkStep_under 50000 [] [] 0 fileA hA, file_tokens_fileA]
    norm_num
  have hB : ¬ (50000:Nat) < 250 + file_tokens fileB := by
    rw [file_tokens_fileB]
    norm_num
  have h2 : chunkStep 50000 ([], [fileA], 250) fileB = ([], [fileA, fileB], 500) := by
    rw [chunkStep_under 50000 [] [fileA] 250 fileB hB, file_tokens_fileB]
    norm_num
  have hC : (50000:Nat) < 500 + file_tokens fileBig := by
    rw [file_tokens_fileBig]
    norm_num
  have h3 : chunkStep 50000 ([], [fileA, fileB], 500) fileBig
      = ([[fileA, fileB]], [fileBig], 52500) := by
    rw [chunkStep_over 50000 [] [fileA, fileB] 500 fileBig hC, file_tokens_fileBig]
    norm_num
  have hfold : List.foldl (chunkStep 50000) ([], [], 0) [fileA, fileB, fileBig]
      = ([[fileA, fileB]], [fileBig], 52500) := by
    rw [List.foldl_cons, h1, List.foldl_cons, h2, List.foldl_cons, h3,
      List.foldl_nil]
  rw [chunk_files_eq, hfold]
  norm_num

/-- A review finding as parsed from the model output: a Python dict whose
keys may be absent, hence `Option`-valued fields. -/
structure Issue where
  severity : Option String
  category : Option String
  title : Option String
  file : Option String
  line : Option Int
  description : Option String
  suggestion : Option String
  deriving Repr, DecidableEq

/-- From `create_github_issues`:
`[i for i in issues if i.get('severity') == 'critical']`. -/
def critical_issues (issues : List Issue) : List Issue :=
  issues.filter (fun i => i.severity == some "critical")

/-- From `create_github_issues`:
`[i for i in issues if i.get('severity') == 'high']`. -/
def high_issues (issues : List Issue) : List Issue :=
  issues.filter (fun i => i.severity == some "high")

/-- From `create_github_issues`:
`[i for i in issues if i.get('severity') in ['medium', 'low']]`. -/
def other_issues (issues : List Issue) : List Issue :=
  issues.filter (fun i => i.severity == some "medium" || i.severity == some "low")

/-- Concrete issue whose severity string is not one of the four recognized
values. -/
def unknownIssue : Issue :=
  ⟨some "unknown", some "quality", some "t", none, none, none, none⟩

/-- Concrete issue with severity "medium". -/
def medIssue : Issue :=
  ⟨some "medium", some "quality", some "m", none, none, none, none⟩

/-- Counterexample for C1: an issue whose severity string is "unknown" lands
in none of the three buckets of `create_github_issues` — it is dropped, not
treated as "other". -/
theorem C1_counterexample :
    unknownIssue ∉ critical_issues [unknownIssue]
    ∧ unknownIssue ∉ high_issues [unknownIssue]
    ∧ unknownIssue ∉ other_issues [unknownIssue] := by
  decide

/-- Claim C1 (amended): the three severity buckets are characterized exactly
by the severity field — critical for "critical", high for "high", other for
"medium"/"low" — so they are pairwise disjoint, and an issue whose severity
is absent or unrecognized lands in no bucket at all. -/
theorem C1_severity_buckets (issues : List Issue) (i : Issue) (hi : i ∈ issues) :
    (i ∈ critical_issues issues ↔ i.severity = some "critical")
    ∧ (i ∈ high_issues issues ↔ i.severity = some "high")
    ∧ (i ∈ other_issues issues ↔
        (i.severity = some "medium" ∨ i.severity = some "low")) := by
  refine ⟨?_, ?_, ?_⟩ <;>
    simp [critical_issues, high_issues, other_issues, List.mem_filter, hi]

/-- Witness for C1 at concrete inputs: a "medium" issue is in the "other"
bucket. -/
theorem C1_severity_buckets_witness :
    medIssue ∈ other_issues [medIssue] :=
  (C1_severity_buckets [medIssue] medIssue (by decide)).2.2.mpr (Or.inl rfl)

/-- From `generate_summary_report`: the per-severity line
`len([i for i in all_issues if i.get('severity') == s])`. -/
def severity_count (s : String) (issues : List Issue) : Nat :=
  (issues.filter (fun i => i.severity == some s)).length

/-- The sum of the four per-severity counts printed by the summary report. -/
def severitySum (issues : List Issue) : Nat :=
  severity_count "critical" issues + severity_count "high" issues
  + severity_count "medium" issues + severity_count "low" issues

/-- Python `issue.get('category', 'general')`. -/
def issueCategory (i : Issue) : String :=
  i.category.getD "general"

/-- One step of building the `categories` dict:
`categories[cat] = categories.get(cat, 0) + 1`, on an insertion-ordered
association list as Python dicts are. -/
def bumpCategory (m : List (String × Nat)) (k : String) : List (String × Nat) :=
  match m with
  | [] => [(k, 1)]
  | (k', v) :: rest =>
      if k' = k then (k', v + 1) :: rest else (k', v) :: bumpCategory rest k

/-- From `generate_summary_report`: the `categories` dict after the loop over
`all_issues`.  (The report then sorts the entries by descending count, which
does not change any count.) -/
def category_counts (issues : List Issue) : List (String × Nat) :=
  issues.foldl (fun m i => bumpCategory m (issueCategory i)) []

/-- Sum of the counts of a category tally. -/
def countsSum (m : List (String × Nat)) : Nat :=
  (m.map Prod.snd).sum

/-- An issue counts toward some severity line of the report exactly when its
severity is one of the four recognized strings. -/
def recognizedSeverity (i : Issue) : Bool :=
  i.severity == some "critical" || i.severity == some "high"
  || i.severity == some "medium" || i.severity == some "low"

lemma countsSum_bump (m : List (String × Nat)) (k : String) :
    countsSum (bumpCategory m k) = countsSum m + 1 := by
  induction m with
  | nil => simp [bumpCategory, countsSum]
  | cons p rest ih =>
    obtain ⟨k', v⟩ := p
    by_cases h : k' = k
    · simp [bumpCategory, h, countsSum]
      omega
    · simp only [bumpCategory, if_neg h, countsSum, List.map_cons, List.sum_cons]
      simp only [countsSum] at ih
      omega

lemma countsSum_fold (issues : List Issue) :
    ∀ m, countsSum (issues.foldl (fun m i => bumpCategory m (issueCategory i)) m)
      = countsSum m + issues.length := by
  induction issues with
  | nil =>
    intro m
    simp
  | cons i rest ih =>
    intro m
    rw [List.foldl_cons, ih, countsSum_bump]
    simp [List.length_cons]
    omega

lemma severitySum_cons (i : Issue) (rest : List Issue) :
    severitySum (i :: rest)
      = (if recognizedSeverity i then 1 else 0) + severitySum rest := by
  unfold severitySum severity_count recognizedSeverity
  simp only [List.filter_cons]
  rcases hs : i.severity with _ | s
  · simp
  · by_cases h1 : s = "critical"
    · subst h1
      simp
      omega
    · by_cases h2 : s = "high"
      · subst h2
        simp [h1]
        omega
      · by_cases h3 : s = "medium"
        · subst h3
          simp [h1, h2]
          omega
        · by_cases h4 : s = "low"
          · subst h4
            simp [h1, h2, h3]
            omega
          · simp [h1, h2, h3, h4]

/-- Counterexample for C3: with a single issue of unrecognized severity, the
four per-severity counts of the summary report sum to 0, not to the total
issue count 1. -/
theorem C3_counterexample :
    severitySum [unknownIssue] = 0
    ∧ ([unknownIssue] : List Issue).length = 1
    ∧ severitySum [unknownIssue] ≠ ([unknownIssue] : List Issue).length := by
  decide

/-- Claim C3 (amended): the per-category counts of the summary report always
sum to the total issue count, while the per-severity counts sum to the number
of issues whose severity is one of critical/high/medium/low — which equals
the total only when every severity is recognized. -/
theorem C3_summary_counts (issues : List Issue) :
    countsSum (category_counts issues) = issues.length
    ∧ severitySum issues = (issues.filter recognizedSeverity).length := by
  constructor
  · have h := countsSum_fold issues []
    simpa [category_counts, countsSum] using h
  · induction issues with
    | nil => rfl
    | cons i rest ih =>
      rw [severitySum_cons, List.filter_cons]
      by_cases h : recognizedSeverity i
      · simp [h, ih]
        omega
      · simp [h, ih]

/-- Concrete one-character file, on which floor and ceil of `length / 4`
differ. -/
def oneCharFile : SourceFile := ⟨"x.py".toList, ['x']⟩

/-- Counterexample for C2: the code's estimate of a one-character file is
`1 // 4 = 0`, while the spec's `ceil(1 / 4)` is 1. -/
theorem C2_counterexample :
    file_tokens oneCharFile = 0
    ∧ specCeilTokens oneCharFile = 1
    ∧ file_tokens oneCharFile ≠ specCeilTokens oneCharFile := by
  decide

/-- Claim C2 (amended): the code estimates a file at `floor(content_length/4)`
(Python `//`), not `ceil`; the two agree exactly when the length is a
multiple of 4.  A batch's estimated size is the sum of the per-file
estimates. -/
theorem C2_token_estimate (f : SourceFile) (c : List SourceFile) :
    file_tokens f = f.content.length / 4
    ∧ (file_tokens f = specCeilTokens f ↔ f.content.length % 4 = 0)
    ∧ batchTokens c = (c.map file_tokens).sum := by
  refine ⟨rfl, ?_, rfl⟩
  unfold file_tokens specCeilTokens
  omega

/-- Witness for C2 at a concrete input: on a 4-character file the floor and
ceil estimates agree. -/
theorem C2_token_estimate_witness :
    file_tokens tinyFile2 = specCeilTokens tinyFile2 :=
  ((C2_token_estimate tinyFile2 []).2.1).mpr (by decide)

/-- The opening-brace character. -/
def lbrace : Char := Char.ofNat 123

/-- The closing-brace character. -/
def rbrace : Char := Char.ofNat 125

/-- Index of the first occurrence of `c`, if any. -/
def firstIdxOf (c : Char) : List Char → Option Nat
  | [] => none
  | x :: xs => if x = c then some 0 else (firstIdxOf c xs).map (· + 1)

/-- Index of the last occurrence of `c`, if any. -/
def lastIdxOf (c : Char) (s : List Char) : Option Nat :=
  (firstIdxOf c s.reverse).map (fun i => s.length - 1 - i)

/-- The semantics of `re.search(r'\x7b.*\x7d', response_text, re.DOTALL)`:
with a greedy dot-matches-all pattern, the match (when one exists) runs from
the first opening brace to the last closing brace of the text. -/
def braceMatch (s : List Char) : Option (List Char) :=
  match firstIdxOf lbrace s, lastIdxOf rbrace s with
  | some i, some j => if i < j then some ((s.drop i).take (j - i + 1)) else none
  | _, _ => none

/-- A decoded JSON value, the shape `json.loads` can return. -/
inductive Json where
  | null
  | bool (b : Bool)
  | num (n : Int)
  | str (s : String)
  | arr (elems : List Json)
  | obj (fields : List (String × Json))
  deriving Repr

/-- Dictionary lookup, as used by `issues_data.get('issues', [])`. -/
def jsonLookup (fields : List (String × Json)) (k : String) : Option Json :=
  match fields with
  | [] => none
  | (k', v) :: rest => if k' = k then some v else jsonLookup rest k

/-- The extraction step of `review_chunk`, lines 187-197: search the raw
response for the greedy brace region, decode it, and return its `issues`
field, with every failure path — no regex match, a decode error (the
surrounding `except` clause), or a decoded value that is not an object —
yielding the empty list.  The decoder `json.loads` is an external library
call and is passed in as a function. -/
def extract_issues (json_loads : List Char → Option Json)
    (response_text : List Char) : Json :=
  match braceMatch response_text with
  | some region =>
    match json_loads region with
    | some (Json.obj fields) => (jsonLookup fields "issues").getD (Json.arr [])
    | some _ => Json.arr []
    | none => Json.arr []
  | none => Json.arr []

/-- `review_chunk`, with the network call abstracted to its outcome: a raised
exception is caught and yields no issues, a returned text goes through
`extract_issues`. -/
def review_chunk (api_response : Except String (List Char))
    (json_loads : List Char → Option Json) : Json :=
  match api_response with
  | Except.error _ => Json.arr []
  | Except.ok text => extract_issues json_loads text

lemma firstIdxOf_append_of_not_mem (c : Char) (a b : List Char) (h : c ∉ a) :
    firstIdxOf c (a ++ b) = (firstIdxOf c b).map (fun i => i + a.length) := by
  induction a with
  | nil =>
    cases hb : firstIdxOf c b <;> simp [hb]
  | cons x xs ih =>
    have hx : x ≠ c := fun hxc => h (by simp [hxc])
    have hxs : c ∉ xs := fun hc => h (by simp [hc])
    rw [List.cons_append]
    rw [firstIdxOf]
    rw [if_neg hx]
    rw [ih hxs]
    cases hb : firstIdxOf c b
    · simp
    · simp
      omega

lemma firstIdxOf_head (c : Char) (rest : List Char) :
    firstIdxOf c (c :: rest) = some 0 := by
  rw [firstIdxOf]
  rw [if_pos rfl]

/-- When the text is some prefix without an opening brace, then a single
brace-delimited region, then a suffix without a closing brace, the greedy
regex match returns exactly that region. -/
lemma braceMatch_decomp (pre core post : List Char)
    (hpre : lbrace ∉ pre) (hpost : rbrace ∉ post) :
    braceMatch (pre ++ (lbrace :: (core ++ [rbrace])) ++ post)
      = some (lbrace :: (core ++ [rbrace])) := by
  set mid : List Char := lbrace :: (core ++ [rbrace]) with hmid
  have hmidlen : mid.length = core.length + 2 := by
    simp [hmid]
  have hfirst : firstIdxOf lbrace (pre ++ mid ++ post) = some pre.length := by
    rw [List.append_assoc]
    rw [firstIdxOf_append_of_not_mem lbrace pre (mid ++ post) hpre]
    rw [hmid]
    rw [List.cons_append]
    rw [firstIdxOf_head]
    simp
  have hrev : (pre ++ mid ++ post).reverse
      = post.reverse ++ ((rbrace :: (core.reverse ++ [lbrace])) ++ pre.reverse) := by
    rw [hmid]
    simp
  have hlast : lastIdxOf rbrace (pre ++ mid ++ post)
      = some (pre.length + core.length + 1) := by
    unfold lastIdxOf
    rw [hrev]
    rw [firstIdxOf_append_of_not_mem rbrace post.reverse
      ((rbrace :: (core.reverse ++ [lbrace])) ++ pre.reverse)
      (fun hc => hpost (List.mem_reverse.mp hc))]
    rw [List.cons_append, firstIdxOf_head]
    have hlen : (pre ++ mid ++ post).length
        = pre.length + (core.length + 2) + post.length := by
      simp [hmidlen]
      omega
    simp only [Option.map_map, Option.map_some', Function.comp]
    refine congrArg some ?_
    rw [hlen]
    simp only [List.length_reverse]
    omega
  have hij : pre.length < pre.length + core.length + 1 := by omega
  have hdrop : (pre ++ mid ++ post).drop pre.length = mid ++ post := by
    rw [List.append_assoc]
    exact List.drop_left pre (mid ++ post)
  have htake : (mid ++ post).take (pre.length + core.length + 1 - pre.length + 1)
      = mid := by
    have harith : pre.length + core.length + 1 - pre.length + 1
        = core.length + 2 := by omega
    rw [harith, ← hmidlen]
    exact List.take_left mid post
  unfold braceMatch
  rw [hfirst, hlast]
  show (if pre.length < pre.length + core.length + 1 then
      some (((pre ++ mid ++ post).drop pre.length).take
        (pre.length + core.length + 1 - pre.length + 1))
    else none) = some mid
  rw [if_pos hij, hdrop, htake]

lemma extract_issues_of_no_match (json_loads : List Char → Option Json)
    (t : List Char) (ht : braceMatch t = none) :
    extract_issues json_loads t = Json.arr [] := by
  simp only [extract_issues, ht]

/-- Claim C6: when the response text is exactly one brace-delimited JSON
object (no other braces around it) that decodes to an object with an `issues`
array, `extract_issues` returns that array unchanged; and when the regex
finds no brace region at all, it returns the empty list without failing. -/
theorem C6_extraction (json_loads : List Char → Option Json)
    (pre core post : List Char) (fields : List (String × Json))
    (issues : List Json)
    (hpre : lbrace ∉ pre) (hpost : rbrace ∉ post)
    (hloads : json_loads (lbrace :: (core ++ [rbrace])) = some (Json.obj fields))
    (hget : jsonLookup fields "issues" = some (Json.arr issues)) :
    extract_issues json_loads (pre ++ (lbrace :: (core ++ [rbrace])) ++ post)
        = Json.arr issues
    ∧ ∀ t, braceMatch t = none →
        extract_issues json_loads t = Json.arr [] := by
  constructor
  · simp only [extract_issues, braceMatch_decomp pre core post hpre hpost,
      hloads, hget, Option.getD]
  · exact extract_issues_of_no_match json_loads

/-- Concrete decoder for the C6 witness: recognizes the one region the
witness text contains. -/
def loadsW : List Char → Option Json :=
  fun r =>
    if r = lbrace :: ("\"issues\": []".toList ++ [rbrace])
    then some (Json.obj [("issues", Json.arr [])])
    else none

/-- Witness for C6 at concrete inputs: the response
`Answer: \x7b"issues": []\x7d done` yields the empty issues array that the
decoded object carries. -/
theorem C6_extraction_witness :
    extract_issues loadsW
      ("Answer: ".toList ++ (lbrace :: ("\"issues\": []".toList ++ [rbrace]))
        ++ " done".toList)
      = Json.arr []
    ∧ extract_issues loadsW "plain text response".toList = Json.arr [] :=
  ⟨(C6_extraction loadsW "Answer: ".toList "\"issues\": []".toList
      " done".toList [("issues", Json.arr [])] []
      (by decide) (by decide) (by simp [loadsW]) (by simp [jsonLookup])).1,
   (C6_extraction loadsW "Answer: ".toList "\"issues\": []".toList
      " done".toList [("issues", Json.arr [])] []
      (by decide) (by decide) (by simp [loadsW]) (by simp [jsonLookup])).2
     "plain text response".toList (by decide)⟩

/-- Claim C8: every failure mode of `review_chunk` — a raised network call,
a response with no brace region, or a region the decoder rejects — is caught
and contributes exactly zero issues. -/
theorem C8_failures_yield_zero (json_loads : List Char → Option Json) :
    (∀ e : String, review_chunk (Except.error e) json_loads = Json.arr [])
    ∧ (∀ t, braceMatch t = none →
        review_chunk (Except.ok t) json_loads = Json.arr [])
    ∧ (∀ t r, braceMatch t = some r → json_loads r = none →
        review_chunk (Except.ok t) json_loads = Json.arr []) := by
  refine ⟨fun e => rfl, ?_, ?_⟩
  · intro t ht
    simp only [review_chunk]
    exact extract_issues_of_no_match json_loads t ht
  · intro t r ht hr
    simp only [review_chunk, extract_issues, ht, hr]

/-- Witness for C8 at concrete inputs: a raised call, a brace-free response,
and an undecodable region each yield the empty issues list. -/
theorem C8_failures_yield_zero_witness :
    review_chunk (Except.error "boom") (fun _ => none) = Json.arr []
    ∧ review_chunk (Except.ok "no braces here".toList) (fun _ => none)
        = Json.arr []
    ∧ review_chunk (Except.ok [lbrace, rbrace]) (fun _ => none) = Json.arr [] :=
  ⟨(C8_failures_yield_zero (fun _ => none)).1 "boom",
   (C8_failures_yield_zero (fun _ => none)).2.1 "no braces here".toList
     (by decide),
   (C8_failures_yield_zero (fun _ => none)).2.2 [lbrace, rbrace]
     [lbrace, rbrace] (by decide) rfl⟩

/-- Python truthiness of an optional string environment variable: absent or
empty is falsy. -/
def truthy (s : Option String) : Bool :=
  match s with
  | none => false
  | some v => !v.isEmpty

/-- The two credentials read from the environment in `__init__`. -/
structure ReviewerEnv where
  anthropic_key : Option String
  github_token : Option String
  deriving Repr, DecidableEq

/-- The credential checks at the top of `__init__`:
`if not self.anthropic_key: raise ...` then
`if not self.github_token: raise ...`. -/
def init_credentials (env : ReviewerEnv) : Except String Unit :=
  if truthy env.anthropic_key = false then
    Except.error "ANTHROPIC_API_KEY not set"
  else if truthy env.github_token = false then
    Except.error "GITHUB_TOKEN not set"
  else
    Except.ok ()

/-- `create_github_issues` with the remote issue-creation call abstracted to
its outcome: each critical/high issue is attempted in turn, a per-issue
exception is caught and skips only that issue, and the successfully created
issues are returned. -/
def create_github_issues (create : Issue → Except String Unit)
    (issues : List Issue) : List Issue :=
  (critical_issues issues ++ high_issues issues).filterMap
    (fun i =>
      match create i with
      | Except.ok _ => some i
      | Except.error _ => none)

/-- The `__main__` block: construction raises on a missing credential and the
surrounding `try/except` exits with status 1 before any issue is created;
otherwise the run completes (all per-batch and per-issue failures being
caught inside) and the process exits 0.  Returns the exit code together with
the issues that were created. -/
def main_result (env : ReviewerEnv) (create : Issue → Except String Unit)
    (issues : List Issue) : Nat × List Issue :=
  match init_credentials env with
  | Except.error _ => (1, [])
  | Except.ok _ => (0, create_github_issues create issues)

/-- Claim C9: a missing (or empty, hence falsy) credential makes the process
exit 1 with no issue created, and with both credentials present the exit code
is 0 regardless of how many individual issue creations fail. -/
theorem C9_exit_codes (env : ReviewerEnv) (create : Issue → Except String Unit)
    (issues : List Issue) :
    ((env.anthropic_key = none ∨ env.github_token = none) →
        main_result env create issues = (1, []))
    ∧ (truthy env.anthropic_key = true → truthy env.github_token = true →
        (main_result env create issues).1 = 0) := by
  constructor
  · intro h
    have herr : ∃ msg, init_credentials env = Except.error msg := by
      unfold init_credentials
      rcases h with h | h
      · rw [h]
        exact ⟨"ANTHROPIC_API_KEY not set", by simp [truthy]⟩
      · by_cases hak : truthy env.anthropic_key = false
        · rw [if_pos hak]
          exact ⟨_, rfl⟩
        · rw [if_neg hak, h]
          exact ⟨"GITHUB_TOKEN not set", by simp [truthy]⟩
    obtain ⟨msg, hmsg⟩ := herr
    unfold main_result
    rw [hmsg]
  · intro h1 h2
    simp [main_result, init_credentials, h1, h2]

/-- Witness for C9 at concrete inputs: a missing API key exits 1 having
created nothing, and with both credentials set the exit code is 0 even though
every creation call fails. -/
theorem C9_exit_codes_witness :
    main_result ⟨none, some "tok"⟩ (fun _ => Except.error "fail") []
      = (1, [])
    ∧ (main_result ⟨some "key", some "tok"⟩ (fun _ => Except.error "fail")
        [medIssue]).1 = 0 :=
  ⟨(C9_exit_codes ⟨none, some "tok"⟩ (fun _ => Except.error "fail") []).1
     (Or.inl rfl),
   (C9_exit_codes ⟨some "key", some "tok"⟩ (fun _ => Except.error "fail")
     [medIssue]).2 (by decide) (by decide)⟩

end ClaudeReview
